import Mathlib

/-
Verification of the transmission-line preprocessing pipeline in
`electric_tower_utils.py` (region partitioning, line-to-point
decomposition, and the numeric subset filter).

The embedding is a shallow one:

* shapely geometries become an inductive `Geometry` type; line geometries
  carry their ordered vertex lists, area geometries carry an id and are
  interpreted only through the containment oracle `ctn` (shapely's
  `area.contains(line)` is a geometric predicate the pipeline merely calls,
  so it is passed in as a Boolean-valued parameter);
* pandas dataframes become lists of records, iterated in row order exactly
  as `iterrows` does;
* the global `US_STATES` reference table (imported from a `CONSTANTS`
  module that is not part of the two source files) is passed as an
  association list parameter `us_states`, matching the spec's description
  of it as a state-name → boundary-polygon reference table;
* the `error.log` file handle becomes an explicit list of structured log
  entries plus a `logClosed` flag recording whether `logf.close()` was
  executed before the operation finished;
* a Python exception becomes an `Except`-style error outcome carrying the
  log state at the point of the raise; the output csv is an `Option` that
  is `none` exactly when the `to_csv` call is never reached.

One behaviour of the source needs care: inside
`split_txlines_by_region`, `region_df` is only (re)assigned inside the
per-state loop (`region_df = pd.concat(region_list)`).  For a region whose
member-state list is empty that loop never runs, so
`region_df['region'] = region_name` mutates the *previous* region's
dataframe object — an object already appended to `tx_lines` — and appends
the same object a second time.  The embedding models this with an explicit
store of region dataframe objects (`objs`), a list of references into the
store (`entries`), and the `current` reference held by the `region_df`
variable.
-/

namespace CollectingImages

/-- Shapely-style geometry values used by the pipeline.  Line geometries
carry their ordered `(x, y)` vertex lists; area geometries are identified
by an id and are interpreted only through the containment oracle. -/
inductive Geometry where
  | lineString (coords : List (ℚ × ℚ))
  | multiLineString (parts : List (List (ℚ × ℚ)))
  | pointGeom (p : ℚ × ℚ)
  | polygon (pid : ℕ)
  | multiPolygon (pid : ℕ)
  | geometryCollection (gid : ℕ)
deriving DecidableEq

/-- The `geom_type` attribute of a shapely geometry. -/
def Geometry.geom_type : Geometry → String
  | .lineString _ => "LineString"
  | .multiLineString _ => "MultiLineString"
  | .pointGeom _ => "Point"
  | .polygon _ => "Polygon"
  | .multiPolygon _ => "MultiPolygon"
  | .geometryCollection _ => "GeometryCollection"

/-- One row of the input line-feature collection (`tmp_gdf`): the
attributes the pipeline reads plus the geometry column. -/
structure LineRow where
  ID : ℕ
  SHAPE_Leng : ℚ
  VOLTAGE : ℚ
  OWNER : String
  geometry : Geometry
deriving DecidableEq

/-- One row of the `tx_lines.csv` table produced by
`split_txlines_by_region`: the original line row plus the `state` and
`region` columns stamped onto it. -/
structure PartitionedRow where
  line : LineRow
  state : String
  region : String
deriving DecidableEq

/-- Structured entries of the `error.log` written by
`split_txlines_by_region`: the run-start header, the per-region banner,
and the per-state record count lines. -/
inductive SplitLog where
  | header
  | regionHeader (region : String)
  | stateCount (state : String) (count : ℕ)
deriving DecidableEq

/-- The exceptions `split_txlines_by_region` can raise: the `IndexError`
from `.values[0]` when a state name matches no row of the reference table
(the spec's `UnknownState`), the `ValueError` for a non-(Multi)Polygon
boundary geometry (the spec's `InvalidPolygonType`), the `NameError` when
`region_df` is read before any assignment (first region has an empty
member list), and the `ValueError` of `pd.concat` on an empty list of
dataframes. -/
inductive SplitError where
  | unknownState (state : String)
  | invalidPolygonType (t : String)
  | nameErrorRegionDf
  | emptyConcat
deriving DecidableEq

/-- Translation of
`US_STATES[US_STATES.STATE_NAME == state]['geometry'].values[0]`:
boolean-mask filtering of the reference table by state name followed by
taking the first value; `none` models the `IndexError` when no row
matches. -/
def lookupState (us_states : List (String × Geometry)) (state : String) :
    Option Geometry :=
  ((us_states.filter fun p => p.1 = state).map Prod.snd).head?

/-- Translation of the polygon-type test
`polygon.geom_type == 'Polygon' or polygon.geom_type == 'MultiPolygon'`. -/
def isValidArea (g : Geometry) : Bool :=
  g.geom_type == "Polygon" || g.geom_type == "MultiPolygon"

/-- Translation of the inner row loop for one state: scan `tmp_gdf` in row
order, keep the rows whose geometry the state's area contains
(`valid_area.contains(line)`), then stamp the `state` column
(`temp_df['state'] = state`). -/
def stateRows (ctn : Geometry → Geometry → Bool) (area : Geometry)
    (lines : List LineRow) (state : String) : List (LineRow × String) :=
  (lines.filter fun l => ctn area l.geometry).map fun l => (l, state)

/-- Translation of the per-state loop of `split_txlines_by_region` for one
region: for each state in declaration order, look up its boundary polygon
(raising on a missing or non-areal geometry), collect the contained lines,
and append the per-state record-count line to the log.  Returns the
concatenation `pd.concat(region_list)` of the per-state tables together
with the extended log, or the raised error with the log at that point. -/
def runStates (ctn : Geometry → Geometry → Bool)
    (us_states : List (String × Geometry)) (lines : List LineRow) :
    List String → List SplitLog →
    Except (SplitError × List SplitLog) (List (LineRow × String) × List SplitLog)
  | [], lg => .ok ([], lg)
  | state :: rest, lg =>
    match lookupState us_states state with
    | none => .error (.unknownState state, lg)
    | some area =>
      if isValidArea area then
        let rows := stateRows ctn area lines state
        match runStates ctn us_states lines rest
            (lg ++ [SplitLog.stateCount state rows.length]) with
        | .ok (more, lg2) => .ok (rows ++ more, lg2)
        | .error e => .error e
      else .error (.invalidPolygonType area.geom_type, lg)

/-- A `region_df` dataframe object: the state-stamped rows it holds and
the current value of its `region` column. -/
structure RegionObj where
  rows : List (LineRow × String)
  region : String
deriving DecidableEq

/-- Mutable state of the region loop of `split_txlines_by_region`: the
store of `region_df` objects ever created, the `tx_lines` list as
references into that store, the object the `region_df` variable currently
refers to, and the log written so far. -/
structure RegLoopState where
  objs : List RegionObj
  entries : List ℕ
  current : Option ℕ
  logf : List SplitLog
deriving DecidableEq

/-- Translation of the region loop of `split_txlines_by_region`.  For each
`(region_name, region_state)` pair of `zip(region_names, region_states)`:
write the region banner to the log; if the member-state list is nonempty,
run the per-state loop (so `region_df = pd.concat(region_list)` creates a
fresh object), stamp its `region` column and append a reference to it to
`tx_lines`; if the member-state list is empty, the per-state loop never
runs, so `region_df['region'] = region_name` mutates the object the stale
`region_df` variable still refers to (a `NameError` if there is none) and
`tx_lines.append(region_df)` appends that same reference again. -/
def runRegions (ctn : Geometry → Geometry → Bool)
    (us_states : List (String × Geometry)) (lines : List LineRow) :
    List (String × List String) → RegLoopState →
    Except (SplitError × RegLoopState) RegLoopState
  | [], st => .ok st
  | (rname, sts) :: rest, st =>
    let st1 : RegLoopState := { st with logf := st.logf ++ [SplitLog.regionHeader rname] }
    if sts.isEmpty then
      match st1.current with
      | none => .error (.nameErrorRegionDf, st1)
      | some i =>
        let o := st1.objs.getD i ⟨[], ""⟩
        let st2 : RegLoopState :=
          { st1 with objs := st1.objs.set i ⟨o.rows, rname⟩,
                     entries := st1.entries ++ [i] }
        runRegions ctn us_states lines rest st2
    else
      match runStates ctn us_states lines sts st1.logf with
      | .error (e, lg) => .error (e, { st1 with logf := lg })
      | .ok (srows, lg) =>
        let idx := st1.objs.length
        let st2 : RegLoopState :=
          { objs := st1.objs ++ [⟨srows, rname⟩],
            entries := st1.entries ++ [idx],
            current := some idx,
            logf := lg }
        runRegions ctn us_states lines rest st2

/-- Rows of the final `pd.concat(tx_lines)`: each reference in `tx_lines`
contributes the rows its object holds at that moment, stamped with the
object's (final) `region` column value. -/
def txLinesRows (st : RegLoopState) : List PartitionedRow :=
  st.entries.flatMap fun i =>
    let o := st.objs.getD i ⟨[], ""⟩
    o.rows.map fun p => ⟨p.1, p.2, o.region⟩

/-- Observable outcome of `split_txlines_by_region`: the rows written to
`tx_lines.csv` (or `none` when the `to_csv` call is never reached), the
log entries written, whether `logf.close()` was executed before the
operation finished, and the exception raised if any. -/
structure SplitOutcome where
  txLinesCsv : Option (List PartitionedRow)
  logEntries : List SplitLog
  logClosed : Bool
  errorRaised : Option SplitError
deriving DecidableEq

/-- Translation of `split_txlines_by_region` (the part after the CRS
check): open the log and write the header, run the region loop over
`zip(region_names, region_states)`, write `pd.concat(tx_lines)` to
`tx_lines.csv` and close the log.  An exception anywhere propagates out:
the csv is not written and — there being no `try`/`finally` or `with`
around the handle — `logf.close()` is never executed on that path. -/
def split_txlines_by_region (ctn : Geometry → Geometry → Bool)
    (us_states : List (String × Geometry)) (lines : List LineRow)
    (region_names : List String) (region_states : List (List String)) :
    SplitOutcome :=
  match runRegions ctn us_states lines (region_names.zip region_states)
      ⟨[], [], none, [SplitLog.header]⟩ with
  | .error (e, st) => ⟨none, st.logf, false, some e⟩
  | .ok st =>
    if st.entries.isEmpty then
      ⟨none, st.logf, false, some .emptyConcat⟩
    else
      ⟨some (txLinesRows st), st.logf, true, none⟩

/-- One row of the `tx_lines.csv` file as read back by
`get_tower_coords`: the original line attributes, the `state` and
`region` columns, and the geometry parsed back from its WKT string. -/
structure TxRow where
  ID : ℕ
  SHAPE_Leng : ℚ
  VOLTAGE : ℚ
  OWNER : String
  state : String
  region : String
  geometry : Geometry
deriving DecidableEq

/-- One row of `tower_coordinates.csv`. -/
structure TowerPoint where
  id : ℕ
  tx_line_length : ℚ
  voltage : ℚ
  state : String
  region : String
  owner : String
  lon : ℚ
  lat : ℚ
deriving DecidableEq

/-- Structured entries of the `error.log` written by `get_tower_coords`:
the run-start header and the per-skipped-row diagnostic recording the
row's `ID`, its positional index, and its geometry type. -/
inductive TowerLog where
  | header
  | skip (id : ℕ) (index : ℕ) (geomType : String)
deriving DecidableEq

/-- The `x, y = row.geometry.coords.xy` vertex list of a geometry (the
attribute the LineString branch reads). -/
def Geometry.xyCoords : Geometry → List (ℚ × ℚ)
  | .lineString coords => coords
  | _ => []

/-- The tower points one `tx_lines` row contributes: one per vertex, in
vertex order, with the parent row's attributes copied onto every point
(`id` ← `ID`, `tx_line_length` ← `SHAPE_Leng`, `voltage` ← `VOLTAGE`,
`owner` ← `OWNER`, `state`, `region`, and `lon`/`lat` the vertex `x`/`y`). -/
def towerPointsOfRow (r : TxRow) : List TowerPoint :=
  r.geometry.xyCoords.map fun c =>
    ⟨r.ID, r.SHAPE_Leng, r.VOLTAGE, r.state, r.region, r.OWNER, c.1, c.2⟩

/-- Translation of the row loop of `get_tower_coords`, carrying the
positional index of `iterrows`: a LineString row appends its per-vertex
points to the accumulating dataframe; any other geometry type appends one
skip diagnostic to the log and continues with the next row. -/
def towerLoop : List TxRow → ℕ → List TowerPoint × List TowerLog
  | [], _ => ([], [])
  | r :: rest, i =>
    let acc := towerLoop rest (i + 1)
    if r.geometry.geom_type == "LineString" then
      (towerPointsOfRow r ++ acc.1, acc.2)
    else
      (acc.1, TowerLog.skip r.ID i r.geometry.geom_type :: acc.2)

/-- Observable outcome of `get_tower_coords`: the rows written to
`tower_coordinates.csv`, the log entries, whether `logf.close()` was
executed, and whether the `to_csv` call was reached. -/
structure TowerOutcome where
  pts : List TowerPoint
  logEntries : List TowerLog
  logClosed : Bool
  csvWritten : Bool
deriving DecidableEq

/-- Translation of `get_tower_coords` on the parsed rows of
`tx_lines.csv`: write the log header, run the row loop from positional
index 0, close the log, and write the accumulated points to
`tower_coordinates.csv`. -/
def get_tower_coords (rows : List TxRow) : TowerOutcome :=
  let res := towerLoop rows 0
  ⟨res.1, TowerLog.header :: res.2, true, true⟩

/-- One row of a point table handed to `df_subset`, as an association
list from column name to numeric value. -/
structure PtRow where
  attrs : List (String × ℚ)
deriving DecidableEq

/-- A point dataframe: its column schema and its rows. -/
structure DFrame where
  cols : List String
  rows : List PtRow
deriving DecidableEq

/-- The value a row holds in a named column. -/
def PtRow.valOf (r : PtRow) (feature : String) : ℚ :=
  (r.attrs.lookup feature).getD 0

/-- Translation of `df_subset`: `df.loc[(df[feature] >= min_value) &
(df[feature] <= max_value)]`, the subsequence of rows whose value in the
named column lies in the inclusive range; `df[feature]` raises a
`KeyError` (the spec's `UnknownAttribute`) when the column is not in the
schema. -/
def df_subset (df : DFrame) (feature : String)
    (min_value max_value : ℚ) : Except String DFrame :=
  if feature ∈ df.cols then
    .ok ⟨df.cols, df.rows.filter fun r =>
      decide (min_value ≤ r.valOf feature) && decide (r.valOf feature ≤ max_value)⟩
  else
    .error "UnknownAttribute"

/-! Helper lemmas about the region partitioner. -/

/-- When every state of the list resolves to a valid area polygon, the
per-state loop succeeds and returns the concatenated per-state tables in
state declaration order together with the per-state count log entries. -/
lemma runStates_ok (ctn : Geometry → Geometry → Bool)
    (us_states : List (String × Geometry)) (lines : List LineRow)
    (poly : String → Geometry) :
    ∀ (sts : List String) (lg : List SplitLog),
      (∀ s ∈ sts, lookupState us_states s = some (poly s) ∧
        isValidArea (poly s) = true) →
      runStates ctn us_states lines sts lg =
        .ok (sts.flatMap fun s => stateRows ctn (poly s) lines s,
             lg ++ sts.map fun s =>
               SplitLog.stateCount s (stateRows ctn (poly s) lines s).length)
  | [], lg, _ => by simp [runStates]
  | s :: rest, lg, h => by
    obtain ⟨h1, h2⟩ := h s (List.mem_cons_self ..)
    have ih := runStates_ok ctn us_states lines poly rest
      (lg ++ [SplitLog.stateCount s (stateRows ctn (poly s) lines s).length])
      (fun x hx => h x (List.mem_cons_of_mem _ hx))
    simp only [runStates, h1, h2, if_true, ih]
    simp [List.append_assoc]

/-- If some state of the list fails to resolve to a valid area polygon,
the per-state loop raises. -/
lemma runStates_error_of_bad (ctn : Geometry → Geometry → Bool)
    (us_states : List (String × Geometry)) (lines : List LineRow)
    (s : String)
    (hbad : lookupState us_states s = none ∨
      ∃ g, lookupState us_states s = some g ∧ isValidArea g = false) :
    ∀ (sts : List String), s ∈ sts → ∀ lg,
      ∃ e, runStates ctn us_states lines sts lg = .error e
  | [], hs, _ => absurd hs (List.not_mem_nil s)
  | s1 :: rest, hs, lg => by
    match h1 : lookupState us_states s1 with
    | none => exact ⟨(.unknownState s1, lg), by simp [runStates, h1]⟩
    | some area =>
      match h2 : isValidArea area with
      | false => exact ⟨(.invalidPolygonType area.geom_type, lg),
        by simp [runStates, h1, h2]⟩
      | true =>
        have hrest : s ∈ rest := by
          rcases List.mem_cons.mp hs with heq | hm
          · subst heq
            rcases hbad with hb | ⟨g, hg, hgv⟩
            · rw [hb] at h1; cases h1
            · rw [hg] at h1; cases h1; rw [h2] at hgv; cases hgv
          · exact hm
        obtain ⟨e, he⟩ := runStates_error_of_bad ctn us_states lines s hbad rest hrest
          (lg ++ [SplitLog.stateCount s1 (stateRows ctn area lines s1).length])
        exact ⟨e, by simp [runStates, h1, h2, he]⟩

/-- If some region of the list declares a state that fails to resolve to
a valid area polygon, the region loop raises (whatever else happens on
the way there). -/
lemma runRegions_error_of_bad (ctn : Geometry → Geometry → Bool)
    (us_states : List (String × Geometry)) (lines : List LineRow)
    (s rname : String) (sts : List String) (hs : s ∈ sts)
    (hbad : lookupState us_states s = none ∨
      ∃ g, lookupState us_states s = some g ∧ isValidArea g = false) :
    ∀ (regs : List (String × List String)), (rname, sts) ∈ regs →
      ∀ st, ∃ e, runRegions ctn us_states lines regs st = .error e
  | [], hmem, _ => absurd hmem (List.not_mem_nil _)
  | (rn1, sts1) :: rest, hmem, st => by
    rcases List.mem_cons.mp hmem with heq | hm
    · have hrn : rn1 = rname := (congrArg Prod.fst heq.symm)
      have hsts : sts1 = sts := (congrArg Prod.snd heq.symm)
      subst hrn; subst hsts
      have hemp : sts1.isEmpty = false :=
        List.isEmpty_eq_false.mpr (List.ne_nil_of_mem hs)
      obtain ⟨e, he⟩ := runStates_error_of_bad ctn us_states lines s hbad sts1 hs
        (st.logf ++ [SplitLog.regionHeader rn1])
      refine ⟨(e.1, { st with logf := e.2 }), ?_⟩
      simp only [runRegions, hemp, Bool.false_eq_true, if_false]
      rw [he]
    · by_cases hemp : sts1.isEmpty
      · match hcur : st.current with
        | none =>
          exact ⟨(.nameErrorRegionDf,
            { st with logf := st.logf ++ [SplitLog.regionHeader rn1] }),
            by simp [runRegions, hemp, hcur]⟩
        | some i =>
          have ih := runRegions_error_of_bad ctn us_states lines s rname sts hs
            hbad rest hm
          simp only [runRegions, hemp, if_true, hcur]
          exact ih _
      · rw [Bool.not_eq_true] at hemp
        match hrs : runStates ctn us_states lines sts1
            (st.logf ++ [SplitLog.regionHeader rn1]) with
        | .error e2 =>
          refine ⟨(e2.1, { st with logf := e2.2 }), ?_⟩
          simp only [runRegions, hemp, Bool.false_eq_true, if_false]
          rw [hrs]
        | .ok (srows, lg) =>
          have ih := runRegions_error_of_bad ctn us_states lines s rname sts hs
            hbad rest hm
          simp only [runRegions, hemp, Bool.false_eq_true, if_false, hrs]
          exact ih _

/-- When every region's member-state list is nonempty and every declared
state resolves to a valid area polygon, the region loop succeeds: the
store gains one fresh object per region in region order, the `tx_lines`
references are exactly those fresh objects in order, and the log gains the
region banners and per-state counts in declaration order. -/
lemma runRegions_ok (ctn : Geometry → Geometry → Bool)
    (us_states : List (String × Geometry)) (lines : List LineRow)
    (poly : String → Geometry) :
    ∀ (regs : List (String × List String)) (st : RegLoopState),
      (∀ rp ∈ regs, rp.2 ≠ []) →
      (∀ rp ∈ regs, ∀ s ∈ rp.2, lookupState us_states s = some (poly s) ∧
        isValidArea (poly s) = true) →
      ∃ cur, runRegions ctn us_states lines regs st =
        .ok ⟨st.objs ++ regs.map (fun rp =>
               ⟨rp.2.flatMap fun s => stateRows ctn (poly s) lines s, rp.1⟩),
             st.entries ++ (List.range regs.length).map (fun k => st.objs.length + k),
             cur,
             st.logf ++ regs.flatMap (fun rp =>
               SplitLog.regionHeader rp.1 :: rp.2.map fun s =>
                 SplitLog.stateCount s (stateRows ctn (poly s) lines s).length)⟩
  | [], st, _, _ => ⟨st.current, by simp [runRegions]⟩
  | (rn1, sts1) :: rest, st, hne, hlook => by
    have hne1 : sts1 ≠ [] := hne (rn1, sts1) (List.mem_cons_self ..)
    have hemp : sts1.isEmpty = false := List.isEmpty_eq_false.mpr hne1
    have hrs := runStates_ok ctn us_states lines poly sts1
      (st.logf ++ [SplitLog.regionHeader rn1])
      (fun s hs => hlook (rn1, sts1) (List.mem_cons_self ..) s hs)
    obtain ⟨cur, ih⟩ := runRegions_ok ctn us_states lines poly rest
      ⟨st.objs ++ [⟨sts1.flatMap fun s => stateRows ctn (poly s) lines s, rn1⟩],
       st.entries ++ [st.objs.length],
       some st.objs.length,
       (st.logf ++ [SplitLog.regionHeader rn1]) ++ sts1.map fun s =>
         SplitLog.stateCount s (stateRows ctn (poly s) lines s).length⟩
      (fun rp hrp => hne rp (List.mem_cons_of_mem _ hrp))
      (fun rp hrp => hlook rp (List.mem_cons_of_mem _ hrp))
    refine ⟨cur, ?_⟩
    simp only [runRegions, hemp, Bool.false_eq_true, if_false, hrs]
    rw [ih]
    refine congrArg Except.ok ?_
    simp only [RegLoopState.mk.injEq]
    refine ⟨by simp, ?_, by trivial, by simp [List.append_assoc]⟩
    simp only [List.length_cons, List.length_append, List.length_singleton,
      List.length_nil, List.range_succ_eq_map, List.map_cons, List.map_map,
      List.append_assoc, List.singleton_append, Nat.add_zero]
    refine congrArg _ (congrArg _ ?_)
    refine List.map_congr_left (fun k _ => ?_)
    simp only [Function.comp_apply]
    omega

/-- The table asserted by the spec for a successful partition run: rows
grouped by region in declaration order, within a region by state in
declaration order, and within a state the contained lines in input
order, each stamped with the state and region. -/
def groupedTable (ctn : Geometry → Geometry → Bool) (poly : String → Geometry)
    (lines : List LineRow) (regs : List (String × List String)) :
    List PartitionedRow :=
  regs.flatMap fun rp => rp.2.flatMap fun s =>
    (lines.filter fun l => ctn (poly s) l.geometry).map fun l => ⟨l, s, rp.1⟩

/-- The log contents of a successful partition run: the header, then per
region its banner followed by one count line per state, the count being
the number of input lines the state's polygon contains. -/
def splitLogOf (ctn : Geometry → Geometry → Bool) (poly : String → Geometry)
    (lines : List LineRow) (regs : List (String × List String)) :
    List SplitLog :=
  SplitLog.header :: regs.flatMap fun rp =>
    SplitLog.regionHeader rp.1 :: rp.2.map fun s =>
      SplitLog.stateCount s ((lines.filter fun l => ctn (poly s) l.geometry).length)

/-- Flattening an object store through positional `getD` references in
store order is just flattening the store. -/
lemma flatMap_range_getD :
    ∀ (l : List RegionObj),
      (List.range l.length).flatMap (fun i =>
        (l.getD i ⟨[], ""⟩).rows.map fun p =>
          (⟨p.1, p.2, (l.getD i ⟨[], ""⟩).region⟩ : PartitionedRow)) =
      l.flatMap fun o => o.rows.map fun p => ⟨p.1, p.2, o.region⟩
  | [] => by simp
  | x :: xs => by
    rw [List.length_cons, List.range_succ_eq_map, List.flatMap_cons,
      List.flatMap_map]
    simp only [List.getD_cons_zero, List.getD_cons_succ, List.flatMap_cons]
    rw [flatMap_range_getD xs]

/-- The final concatenation of a run whose references are exactly the
positions of the store, in order, is the grouped table. -/
lemma txLinesRows_eq (ctn : Geometry → Geometry → Bool)
    (poly : String → Geometry) (lines : List LineRow)
    (regs : List (String × List String)) (cur : Option ℕ) (lg : List SplitLog) :
    txLinesRows ⟨regs.map (fun rp =>
        ⟨rp.2.flatMap fun s => stateRows ctn (poly s) lines s, rp.1⟩),
      List.range regs.length, cur, lg⟩ =
    groupedTable ctn poly lines regs := by
  have hlen2 : regs.length = (regs.map (fun rp =>
      (⟨rp.2.flatMap fun s => stateRows ctn (poly s) lines s, rp.1⟩ :
        RegionObj))).length := by
    rw [List.length_map]
  show (List.range regs.length).flatMap (fun i =>
      ((regs.map (fun rp => (⟨rp.2.flatMap fun s => stateRows ctn (poly s) lines s,
        rp.1⟩ : RegionObj))).getD i ⟨[], ""⟩).rows.map fun p =>
        (⟨p.1, p.2, ((regs.map (fun rp => (⟨rp.2.flatMap fun s =>
          stateRows ctn (poly s) lines s, rp.1⟩ : RegionObj))).getD i
            ⟨[], ""⟩).region⟩ : PartitionedRow)) = _
  rw [hlen2, flatMap_range_getD, List.flatMap_map]
  simp [groupedTable, stateRows, List.map_flatMap, List.map_map, Function.comp_def]

/-- Characterization of a successful `split_txlines_by_region` run: when
there is at least one region, every region's member-state list is
nonempty, and every declared state resolves to a valid area polygon, the
run raises nothing, writes the grouped table to `tx_lines.csv`, writes
the banner-and-counts log, and closes the log handle. -/
lemma split_ok (ctn : Geometry → Geometry → Bool)
    (us_states : List (String × Geometry)) (lines : List LineRow)
    (region_names : List String) (region_states : List (List String))
    (poly : String → Geometry)
    (hzip : region_names.zip region_states ≠ [])
    (hne : ∀ rp ∈ region_names.zip region_states, rp.2 ≠ [])
    (hlook : ∀ rp ∈ region_names.zip region_states, ∀ s ∈ rp.2,
      lookupState us_states s = some (poly s) ∧ isValidArea (poly s) = true) :
    split_txlines_by_region ctn us_states lines region_names region_states =
      ⟨some (groupedTable ctn poly lines (region_names.zip region_states)),
       splitLogOf ctn poly lines (region_names.zip region_states),
       true, none⟩ := by
  obtain ⟨cur, hrun⟩ := runRegions_ok ctn us_states lines poly
    (region_names.zip region_states) ⟨[], [], none, [SplitLog.header]⟩ hne hlook
  simp only [List.nil_append, List.length_nil, Nat.zero_add, List.map_id'] at hrun
  unfold split_txlines_by_region
  rw [hrun]
  have hlen : (List.range (region_names.zip region_states).length).isEmpty = false := by
    rw [List.isEmpty_eq_false]
    simp only [ne_eq, List.range_eq_nil]
    intro h
    exact hzip (List.eq_nil_of_length_eq_zero h)
  simp only [hlen, Bool.false_eq_true, if_false]
  simp only [SplitOutcome.mk.injEq]
  refine ⟨congrArg some (txLinesRows_eq ..), ?_, by trivial, by trivial⟩
  simp [splitLogOf, stateRows, List.length_map]

/-- One region's block of the grouped table. -/
def regionBlock (ctn : Geometry → Geometry → Bool) (poly : String → Geometry)
    (lines : List LineRow) (rp : String × List String) : List PartitionedRow :=
  rp.2.flatMap fun s =>
    (lines.filter fun l => ctn (poly s) l.geometry).map fun l => ⟨l, s, rp.1⟩

/-- The rows a table holds for one line record under one region name. -/
def rowsFor (t : List PartitionedRow) (l : LineRow) (rname : String) :
    List PartitionedRow :=
  t.filter fun r => decide (r.line = l ∧ r.region = rname)

lemma groupedTable_eq_flatMap (ctn : Geometry → Geometry → Bool)
    (poly : String → Geometry) (lines : List LineRow)
    (regs : List (String × List String)) :
    groupedTable ctn poly lines regs = regs.flatMap (regionBlock ctn poly lines) :=
  rfl

lemma region_of_mem_regionBlock (ctn : Geometry → Geometry → Bool)
    (poly : String → Geometry) (lines : List LineRow)
    (rp : String × List String) (r : PartitionedRow)
    (hr : r ∈ regionBlock ctn poly lines rp) : r.region = rp.1 := by
  simp only [regionBlock, List.mem_flatMap, List.mem_map] at hr
  obtain ⟨s, _, l', _, rfl⟩ := hr
  rfl

lemma rowsFor_regionBlock_ne (ctn : Geometry → Geometry → Bool)
    (poly : String → Geometry) (lines : List LineRow)
    (rp : String × List String) (l : LineRow) (rname : String)
    (h : rp.1 ≠ rname) :
    rowsFor (regionBlock ctn poly lines rp) l rname = [] := by
  rw [rowsFor, List.filter_eq_nil_iff]
  intro r hr hq
  rw [decide_eq_true_eq] at hq
  exact h ((region_of_mem_regionBlock ctn poly lines rp r hr) ▸ hq.2)

lemma rowsFor_flatMap_not_mem (ctn : Geometry → Geometry → Bool)
    (poly : String → Geometry) (lines : List LineRow)
    (regs : List (String × List String)) (l : LineRow) (rname : String)
    (h : rname ∉ regs.map Prod.fst) :
    rowsFor (regs.flatMap (regionBlock ctn poly lines)) l rname = [] := by
  rw [rowsFor, List.filter_eq_nil_iff]
  intro r hr hq
  rw [decide_eq_true_eq] at hq
  rw [List.mem_flatMap] at hr
  obtain ⟨rp, hrp, hrblock⟩ := hr
  refine h ?_
  rw [List.mem_map]
  exact ⟨rp, hrp, (region_of_mem_regionBlock ctn poly lines rp r hrblock) ▸ hq.2⟩

/-- With pairwise-distinct region names, selecting a region's rows from
the grouped table selects them from that region's block alone. -/
lemma rowsFor_groupedTable (ctn : Geometry → Geometry → Bool)
    (poly : String → Geometry) (lines : List LineRow)
    (rname : String) (sts : List String) (l : LineRow) :
    ∀ (regs : List (String × List String)),
      (regs.map Prod.fst).Nodup → (rname, sts) ∈ regs →
      rowsFor (groupedTable ctn poly lines regs) l rname =
        rowsFor (regionBlock ctn poly lines (rname, sts)) l rname
  | [], _, hmem => absurd hmem (List.not_mem_nil _)
  | (rn1, sts1) :: rest, hnd, hmem => by
    rw [List.map_cons, List.nodup_cons] at hnd
    obtain ⟨hnotin, hndrest⟩ := hnd
    rw [groupedTable_eq_flatMap, List.flatMap_cons, rowsFor, List.filter_append]
    rcases List.mem_cons.mp hmem with heq | hm
    · have hrn : rn1 = rname := (congrArg Prod.fst heq.symm)
      have hsts : sts1 = sts := (congrArg Prod.snd heq.symm)
      subst hrn; subst hsts
      have hrest : rowsFor (rest.flatMap (regionBlock ctn poly lines)) l rn1 = [] :=
        rowsFor_flatMap_not_mem ctn poly lines rest l rn1 hnotin
      rw [rowsFor] at hrest
      rw [hrest, List.append_nil]
      rfl
    · have hne1 : rn1 ≠ rname := by
        intro hcontra
        refine hnotin ?_
        rw [List.mem_map]
        exact ⟨(rname, sts), hm, hcontra.symm⟩
      have hhead : rowsFor (regionBlock ctn poly lines (rn1, sts1)) l rname = [] :=
        rowsFor_regionBlock_ne ctn poly lines (rn1, sts1) l rname hne1
      rw [rowsFor] at hhead
      rw [hhead, List.nil_append]
      rw [← rowsFor, ← groupedTable_eq_flatMap]
      exact rowsFor_groupedTable ctn poly lines rname sts l rest hndrest hm

lemma filter_eq_replicate_count {α : Type} [DecidableEq α] :
    ∀ (xs : List α) (a : α),
      xs.filter (fun x => decide (x = a)) = List.replicate (xs.count a) a
  | [], _ => by simp
  | x :: xs, a => by
    by_cases h : x = a
    · subst h
      have hstep : (x :: xs).filter (fun y => decide (y = x)) =
          x :: xs.filter (fun y => decide (y = x)) := by simp
      rw [hstep, filter_eq_replicate_count xs x, List.count_cons_self,
        List.replicate_succ]
    · have hcnt : (x :: xs).count a = xs.count a := by
        rw [List.count_cons]
        simp [h]
      rw [hcnt, List.filter_cons]
      simp only [decide_eq_true_eq, h, if_false]
      exact filter_eq_replicate_count xs a

lemma flatMap_if_singleton {α β : Type} (p : α → Bool) (f : α → β) :
    ∀ (xs : List α),
      (xs.flatMap fun x => if p x then [f x] else []) = (xs.filter p).map f
  | [] => by simp
  | x :: xs => by
    by_cases h : p x <;>
      simp [List.flatMap_cons, List.filter_cons, h, flatMap_if_singleton p f xs]

/-- For a line occurring exactly once in the input, its rows inside one
region's block are one row per member state whose polygon contains it,
in state declaration order. -/
lemma rowsFor_regionBlock_self (ctn : Geometry → Geometry → Bool)
    (poly : String → Geometry) (lines : List LineRow)
    (rname : String) (sts : List String) (l : LineRow)
    (hl : lines.count l = 1) :
    rowsFor (regionBlock ctn poly lines (rname, sts)) l rname =
      (sts.filter fun s => ctn (poly s) l.geometry).map fun s => ⟨l, s, rname⟩ := by
  rw [rowsFor, regionBlock, List.filter_flatMap]
  have hper : ∀ s : String,
      (((lines.filter fun l' => ctn (poly s) l'.geometry).map
        fun l' => (⟨l', s, rname⟩ : PartitionedRow)).filter
          fun r => decide (r.line = l ∧ r.region = rname)) =
      if ctn (poly s) l.geometry then [(⟨l, s, rname⟩ : PartitionedRow)] else [] := by
    intro s
    rw [List.filter_map]
    have h1 : ((fun r => decide (r.line = l ∧ r.region = rname)) ∘
        (fun l' => (⟨l', s, rname⟩ : PartitionedRow))) =
        fun l' => decide (l' = l) := by
      funext l'
      simp [Function.comp]
    rw [h1, List.filter_filter]
    have h2 : (fun a => decide (a = l) && ctn (poly s) a.geometry) =
        fun a => decide (a = l) && ctn (poly s) l.geometry := by
      funext a
      by_cases h : a = l
      · subst h; rfl
      · simp [h]
    rw [h2]
    by_cases hc : ctn (poly s) l.geometry
    · simp only [hc, Bool.and_true, if_pos]
      rw [filter_eq_replicate_count lines l, hl]
      rfl
    · rw [Bool.not_eq_true] at hc
      simp [hc]
  rw [funext hper, flatMap_if_singleton]

/-- The first components of a zip form a sublist of the first list. -/
lemma zip_map_fst_sublist {α β : Type} :
    ∀ (l1 : List α) (l2 : List β), ((l1.zip l2).map Prod.fst).Sublist l1
  | [], _ => by simp
  | _ :: _, [] => by simp
  | a :: l1, b :: l2 => by
    rw [List.zip_cons_cons, List.map_cons]
    exact List.Sublist.cons₂ a (zip_map_fst_sublist l1 l2)

/-! Helper lemmas about the line-to-point decomposer. -/

lemma xyCoords_eq_nil (g : Geometry) (h : ¬ g.geom_type = "LineString") :
    g.xyCoords = [] := by
  cases g <;> simp_all [Geometry.geom_type, Geometry.xyCoords]

/-- The points the row loop accumulates are the per-row decompositions,
concatenated in row order. -/
lemma towerLoop_fst :
    ∀ (rows : List TxRow) (i : ℕ),
      (towerLoop rows i).1 = rows.flatMap towerPointsOfRow
  | [], _ => rfl
  | r :: rest, i => by
    by_cases h : r.geometry.geom_type = "LineString"
    · simp [towerLoop, h, towerLoop_fst rest (i + 1)]
    · have hx : towerPointsOfRow r = [] := by
        simp [towerPointsOfRow, xyCoords_eq_nil r.geometry h]
      simp [towerLoop, h, towerLoop_fst rest (i + 1), hx]

/-- The skip log of a concatenation splits at the concatenation point,
with the second part starting at the shifted positional index. -/
lemma towerLoop_snd_append :
    ∀ (xs ys : List TxRow) (i : ℕ),
      (towerLoop (xs ++ ys) i).2 =
        (towerLoop xs i).2 ++ (towerLoop ys (i + xs.length)).2
  | [], ys, i => by simp [towerLoop]
  | x :: xs, ys, i => by
    have hidx : i + (x :: xs).length = (i + 1) + xs.length := by
      rw [List.length_cons]; omega
    rw [hidx]
    by_cases h : x.geometry.geom_type = "LineString" <;>
      simp [towerLoop, h, towerLoop_snd_append xs ys (i + 1)]

/-- Every skip entry the row loop writes from start index `i` records a
positional index in `[i, i + number of rows)`. -/
lemma towerLoop_snd_indices :
    ∀ (rows : List TxRow) (i : ℕ) (e : TowerLog), e ∈ (towerLoop rows i).2 →
      ∃ id j t, e = TowerLog.skip id j t ∧ i ≤ j ∧ j < i + rows.length
  | [], _, _, he => absurd he (List.not_mem_nil _)
  | r :: rest, i, e, he => by
    by_cases h : r.geometry.geom_type = "LineString"
    · have he2 : e ∈ (towerLoop rest (i + 1)).2 := by
        simpa [towerLoop, h] using he
      obtain ⟨id, j, t, rfl, h1, h2⟩ := towerLoop_snd_indices rest (i + 1) e he2
      exact ⟨id, j, t, rfl, by omega, by rw [List.length_cons]; omega⟩
    · have he2 : e = TowerLog.skip r.ID i r.geometry.geom_type ∨
          e ∈ (towerLoop rest (i + 1)).2 := by
        simpa [towerLoop, h] using he
      rcases he2 with rfl | hm
      · exact ⟨r.ID, i, r.geometry.geom_type, rfl, le_refl i,
          by rw [List.length_cons]; omega⟩
      · obtain ⟨id, j, t, rfl, h1, h2⟩ := towerLoop_snd_indices rest (i + 1) e hm
        exact ⟨id, j, t, rfl, by omega, by rw [List.length_cons]; omega⟩

/-- Selector for skip entries recorded at one positional index. -/
def TowerLog.isSkipAt : TowerLog → ℕ → Bool
  | .skip _ j _, k => j == k
  | .header, _ => false

lemma filter_isSkipAt_eq_nil (rows : List TxRow) (i k : ℕ)
    (h : k < i ∨ i + rows.length ≤ k) :
    (towerLoop rows i).2.filter (fun e => e.isSkipAt k) = [] := by
  rw [List.filter_eq_nil_iff]
  intro e he hsk
  obtain ⟨id, j, t, rfl, h1, h2⟩ := towerLoop_snd_indices rows i e he
  have : j = k := by
    have := hsk
    simp only [TowerLog.isSkipAt, beq_iff_eq] at this
    exact this
  omega

/-! Concrete fixtures used by witnesses and counterexamples. -/

/-- Containment oracle under which every area contains every geometry. -/
def ctnAll : Geometry → Geometry → Bool := fun _ _ => true

/-- Containment oracle under which no area contains anything. -/
def ctnNone : Geometry → Geometry → Bool := fun _ _ => false

/-- Containment oracle under which only the area `polygon 1` contains
geometries. -/
def ctnPid1 : Geometry → Geometry → Bool :=
  fun area _ => decide (area = Geometry.polygon 1)

/-- A sample two-vertex line feature. -/
def line0 : LineRow := ⟨1, 10, 230, "own", Geometry.lineString [(0, 0), (1, 2)]⟩

/-- A sample reference state table with two states. -/
def usRef : List (String × Geometry) :=
  [("s1", Geometry.polygon 1), ("s2", Geometry.polygon 2)]

/-- The polygon each state of `usRef` resolves to. -/
def polyRef : String → Geometry :=
  fun s => if s = "s1" then Geometry.polygon 1 else Geometry.polygon 2

/-- A sample `tx_lines.csv` row with a three-vertex LineString. -/
def txRow0 : TxRow :=
  ⟨1, 10, 230, "own", "VT", "NE", Geometry.lineString [(0, 0), (1, 2), (3, 4)]⟩

/-- A sample `tx_lines.csv` row with a Point geometry. -/
def txRowPt : TxRow := ⟨2, 5, 115, "own2", "NH", "NE", Geometry.pointGeom (7, 8)⟩

/-- A second sample LineString `tx_lines.csv` row. -/
def txRow1 : TxRow := ⟨3, 6, 345, "own3", "VT", "NE", Geometry.lineString [(9, 9), (9, 10)]⟩

/-- A sample point dataframe with a voltage column. -/
def df0 : DFrame :=
  ⟨["voltage"], [⟨[("voltage", 100)]⟩, ⟨[("voltage", 230)]⟩, ⟨[("voltage", 345)]⟩]⟩

/-! Claim theorems. -/

/-- C1: for every row of the partitioned-line table whose geometry is a
LineString with k vertices, `get_tower_coords` emits exactly k TowerPoint
rows, each carrying the parent row's id, tx_line_length, voltage, owner,
state and region unchanged, with lon and lat the k vertex coordinates in
their original order, and the k rows form a contiguous run in the output
in the position of the parent row. -/
theorem towers_of_linestring_row (pre post : List TxRow) (r : TxRow)
    (cs : List (ℚ × ℚ)) (h : r.geometry = Geometry.lineString cs) :
    (get_tower_coords (pre ++ r :: post)).pts =
      pre.flatMap towerPointsOfRow ++
        (cs.map fun c => (⟨r.ID, r.SHAPE_Leng, r.VOLTAGE, r.state, r.region,
          r.OWNER, c.1, c.2⟩ : TowerPoint)) ++
        post.flatMap towerPointsOfRow ∧
    (cs.map fun c => (⟨r.ID, r.SHAPE_Leng, r.VOLTAGE, r.state, r.region,
      r.OWNER, c.1, c.2⟩ : TowerPoint)).length = cs.length := by
  constructor
  · show (towerLoop (pre ++ r :: post) 0).1 = _
    rw [towerLoop_fst, List.flatMap_append, List.flatMap_cons]
    simp [towerPointsOfRow, h, Geometry.xyCoords, List.append_assoc]
  · rw [List.length_map]

/-- Witness for C1 at a concrete three-vertex row between two other rows. -/
theorem towers_of_linestring_row_witness :
    txRow0.geometry = Geometry.lineString [(0, 0), (1, 2), (3, 4)] ∧
    ((get_tower_coords ([txRowPt] ++ txRow0 :: [txRow1])).pts =
      [txRowPt].flatMap towerPointsOfRow ++
        ([(0, 0), (1, 2), (3, 4)].map fun c => (⟨txRow0.ID, txRow0.SHAPE_Leng,
          txRow0.VOLTAGE, txRow0.state, txRow0.region, txRow0.OWNER,
          c.1, c.2⟩ : TowerPoint)) ++
        [txRow1].flatMap towerPointsOfRow ∧
    ([(0, 0), (1, 2), (3, 4)].map fun c => (⟨txRow0.ID, txRow0.SHAPE_Leng,
      txRow0.VOLTAGE, txRow0.state, txRow0.region, txRow0.OWNER,
      c.1, c.2⟩ : TowerPoint)).length = ([(0, 0), (1, 2), (3, 4)] : List (ℚ × ℚ)).length) :=
  ⟨rfl, towers_of_linestring_row [txRowPt] [txRow1] txRow0 [(0, 0), (1, 2), (3, 4)] rfl⟩

/-- C4: for every partitioned-line row whose geometry type is not
LineString, `get_tower_coords` emits zero TowerPoint rows for that row,
writes exactly one skip entry recording the row's identifier and
positional index, and continues processing the remaining rows (the run
does not fail and still writes the output csv). -/
theorem non_linestring_skip (pre post : List TxRow) (r : TxRow)
    (h : r.geometry.geom_type ≠ "LineString") :
    (get_tower_coords (pre ++ r :: post)).pts =
      pre.flatMap towerPointsOfRow ++ post.flatMap towerPointsOfRow ∧
    (get_tower_coords (pre ++ r :: post)).logEntries.filter
      (fun e => e.isSkipAt pre.length) =
      [TowerLog.skip r.ID pre.length r.geometry.geom_type] ∧
    (get_tower_coords (pre ++ r :: post)).csvWritten = true := by
  refine ⟨?_, ?_, rfl⟩
  · show (towerLoop (pre ++ r :: post) 0).1 = _
    rw [towerLoop_fst, List.flatMap_append, List.flatMap_cons]
    have hx : towerPointsOfRow r = [] := by
      simp [towerPointsOfRow, xyCoords_eq_nil r.geometry h]
    rw [hx, List.nil_append]
  · have hlog : (get_tower_coords (pre ++ r :: post)).logEntries =
        TowerLog.header :: ((towerLoop pre 0).2 ++
          (TowerLog.skip r.ID pre.length r.geometry.geom_type ::
            (towerLoop post (pre.length + 1)).2)) := by
      show TowerLog.header :: (towerLoop (pre ++ r :: post) 0).2 = _
      rw [towerLoop_snd_append pre (r :: post) 0]
      refine congrArg _ (congrArg _ ?_)
      have h0 : 0 + pre.length = pre.length := by omega
      rw [h0]
      simp [towerLoop, h]
    rw [hlog, List.filter_cons]
    have hh : (TowerLog.header.isSkipAt pre.length) = false := rfl
    rw [hh]
    simp only [Bool.false_eq_true, if_false]
    rw [List.filter_append,
      filter_isSkipAt_eq_nil pre 0 pre.length (Or.inr (by omega)),
      List.nil_append, List.filter_cons]
    have hs : ((TowerLog.skip r.ID pre.length
        r.geometry.geom_type).isSkipAt pre.length) = true := by
      simp [TowerLog.isSkipAt]
    rw [hs]
    simp only [if_true]
    rw [filter_isSkipAt_eq_nil post (pre.length + 1) pre.length (Or.inl (by omega))]

/-- Witness for C4 at a concrete Point-geometry row between two
LineString rows. -/
theorem non_linestring_skip_witness :
    txRowPt.geometry.geom_type ≠ "LineString" ∧
    ((get_tower_coords ([txRow0] ++ txRowPt :: [txRow1])).pts =
      [txRow0].flatMap towerPointsOfRow ++ [txRow1].flatMap towerPointsOfRow ∧
    (get_tower_coords ([txRow0] ++ txRowPt :: [txRow1])).logEntries.filter
      (fun e => e.isSkipAt [txRow0].length) =
      [TowerLog.skip txRowPt.ID [txRow0].length txRowPt.geometry.geom_type] ∧
    (get_tower_coords ([txRow0] ++ txRowPt :: [txRow1])).csvWritten = true) :=
  ⟨by decide, non_linestring_skip [txRow0] [txRow1] txRowPt (by decide)⟩

/-- C2 counterexample: with a region "A" whose single state "s1" contains
the line, followed by a region "B" with an empty member-state list, the
line is contained by exactly one declared state within region "A", yet
the output holds no row for the line in region "A": the stale
`region_df` reference re-stamps region A's dataframe with region name
"B" before the final concatenation. -/
theorem region_single_state_cex :
    (["s1"].filter fun s =>
      ctnAll ((fun _ => Geometry.polygon 1) s) line0.geometry) = ["s1"] ∧
    rowsFor ((split_txlines_by_region ctnAll [("s1", Geometry.polygon 1)] [line0]
      ["A", "B"] [["s1"], []]).txLinesCsv.getD []) line0 "A" = [] := by decide

/-- C2 (amended): provided every declared region's member-state list is
nonempty and every declared state resolves to a valid area polygon, a
line occurring once in the input and contained by exactly one declared
state within a region yields exactly one output row for that line in
that region, stamped with that state's name and that region's name. -/
theorem region_single_state_row
    (ctn : Geometry → Geometry → Bool) (us_states : List (String × Geometry))
    (lines : List LineRow) (region_names : List String)
    (region_states : List (List String)) (poly : String → Geometry)
    (rname : String) (sts : List String) (l : LineRow) (s0 : String)
    (hne : ∀ rp ∈ region_names.zip region_states, rp.2 ≠ [])
    (hlook : ∀ rp ∈ region_names.zip region_states, ∀ s ∈ rp.2,
      lookupState us_states s = some (poly s) ∧ isValidArea (poly s) = true)
    (hnd : region_names.Nodup)
    (hmem : (rname, sts) ∈ region_names.zip region_states)
    (hl : lines.count l = 1)
    (hone : sts.filter (fun s => ctn (poly s) l.geometry) = [s0]) :
    rowsFor ((split_txlines_by_region ctn us_states lines region_names
      region_states).txLinesCsv.getD []) l rname = [⟨l, s0, rname⟩] := by
  have hzip : region_names.zip region_states ≠ [] := List.ne_nil_of_mem hmem
  rw [split_ok ctn us_states lines region_names region_states poly hzip hne hlook]
  show rowsFor (groupedTable ctn poly lines
    (region_names.zip region_states)) l rname = _
  have hndzip : ((region_names.zip region_states).map Prod.fst).Nodup :=
    List.Nodup.sublist (zip_map_fst_sublist region_names region_states) hnd
  rw [rowsFor_groupedTable ctn poly lines rname sts l _ hndzip hmem,
    rowsFor_regionBlock_self ctn poly lines rname sts l hl, hone]
  rfl

/-- Witness for the amended C2: the line is contained only by state "s1"
of region "A" and yields the single row stamped ("s1", "A"). -/
theorem region_single_state_row_witness :
    (∀ rp ∈ ["A", "B"].zip [["s1"], ["s2"]], rp.2 ≠ []) ∧
    (∀ rp ∈ ["A", "B"].zip [["s1"], ["s2"]], ∀ s ∈ rp.2,
      lookupState usRef s = some (polyRef s) ∧ isValidArea (polyRef s) = true) ∧
    (["A", "B"] : List String).Nodup ∧
    ("A", ["s1"]) ∈ ["A", "B"].zip [["s1"], ["s2"]] ∧
    [line0].count line0 = 1 ∧
    ["s1"].filter (fun s => ctnPid1 (polyRef s) line0.geometry) = ["s1"] ∧
    rowsFor ((split_txlines_by_region ctnPid1 usRef [line0] ["A", "B"]
      [["s1"], ["s2"]]).txLinesCsv.getD []) line0 "A" = [⟨line0, "s1", "A"⟩] :=
  ⟨by decide, by decide, by decide, by decide, by decide, by decide,
    region_single_state_row ctnPid1 usRef [line0] ["A", "B"] [["s1"], ["s2"]]
      polyRef "A" ["s1"] line0 "s1" (by decide) (by decide) (by decide)
      (by decide) (by decide) (by decide)⟩

/-- C3: a declared state that matches no row of the reference table, or
whose geometry is not a Polygon/MultiPolygon, makes the whole partition
run raise: the error propagates out and the `tx_lines.csv` write is
never reached. -/
theorem unknown_state_aborts
    (ctn : Geometry → Geometry → Bool) (us_states : List (String × Geometry))
    (lines : List LineRow) (region_names : List String)
    (region_states : List (List String))
    (rname s : String) (sts : List String)
    (hmem : (rname, sts) ∈ region_names.zip region_states) (hs : s ∈ sts)
    (hbad : lookupState us_states s = none ∨
      ∃ g, lookupState us_states s = some g ∧ isValidArea g = false) :
    (split_txlines_by_region ctn us_states lines region_names
      region_states).errorRaised.isSome = true ∧
    (split_txlines_by_region ctn us_states lines region_names
      region_states).txLinesCsv = none := by
  obtain ⟨e, he⟩ := runRegions_error_of_bad ctn us_states lines s rname sts hs hbad
    (region_names.zip region_states) hmem ⟨[], [], none, [SplitLog.header]⟩
  unfold split_txlines_by_region
  rw [he]
  exact ⟨rfl, rfl⟩

/-- Witness for C3: state "zz" matches no row of the reference table and
the run aborts with no csv. -/
theorem unknown_state_aborts_witness :
    (("A", ["zz"]) ∈ ["A"].zip [["zz"]]) ∧ ("zz" ∈ ["zz"]) ∧
    lookupState usRef "zz" = none ∧
    ((split_txlines_by_region ctnAll usRef [line0] ["A"]
      [["zz"]]).errorRaised.isSome = true ∧
    (split_txlines_by_region ctnAll usRef [line0] ["A"]
      [["zz"]]).txLinesCsv = none) :=
  ⟨by decide, by decide, by decide,
    unknown_state_aborts ctnAll usRef [line0] ["A"] [["zz"]] "A" "zz" ["zz"]
      (by decide) (by decide) (Or.inl (by decide))⟩

/-- C5 counterexample: with region "B" declaring an empty member-state
list after region "A", the produced table is the previous region's rows
duplicated and re-stamped "B" — not the grouped-by-declaration-order
table the claim asserts. -/
theorem output_grouping_cex :
    (split_txlines_by_region ctnAll [("s1", Geometry.polygon 1)] [line0]
      ["A", "B"] [["s1"], []]).txLinesCsv =
      some [⟨line0, "s1", "B"⟩, ⟨line0, "s1", "B"⟩] ∧
    some [(⟨line0, "s1", "B"⟩ : PartitionedRow), ⟨line0, "s1", "B"⟩] ≠
      some (groupedTable ctnAll (fun _ => Geometry.polygon 1) [line0]
        (["A", "B"].zip [["s1"], []])) := by decide

/-- C5 (amended): provided at least one region is declared, every
declared region's member-state list is nonempty, and every declared
state resolves to a valid area polygon, the produced table is grouped by
region in declaration order, then by state within each region in
declaration order, and within one state the rows preserve the input
line order. -/
theorem output_grouping
    (ctn : Geometry → Geometry → Bool) (us_states : List (String × Geometry))
    (lines : List LineRow) (region_names : List String)
    (region_states : List (List String)) (poly : String → Geometry)
    (hzip : region_names.zip region_states ≠ [])
    (hne : ∀ rp ∈ region_names.zip region_states, rp.2 ≠ [])
    (hlook : ∀ rp ∈ region_names.zip region_states, ∀ s ∈ rp.2,
      lookupState us_states s = some (poly s) ∧ isValidArea (poly s) = true) :
    (split_txlines_by_region ctn us_states lines region_names
      region_states).txLinesCsv =
      some (groupedTable ctn poly lines (region_names.zip region_states)) := by
  rw [split_ok ctn us_states lines region_names region_states poly hzip hne hlook]

/-- Witness for the amended C5 at a two-region configuration. -/
theorem output_grouping_witness :
    (["A", "B"].zip [["s1"], ["s2"]] ≠ []) ∧
    (∀ rp ∈ ["A", "B"].zip [["s1"], ["s2"]], rp.2 ≠ []) ∧
    (∀ rp ∈ ["A", "B"].zip [["s1"], ["s2"]], ∀ s ∈ rp.2,
      lookupState usRef s = some (polyRef s) ∧ isValidArea (polyRef s) = true) ∧
    (split_txlines_by_region ctnAll usRef [line0] ["A", "B"]
      [["s1"], ["s2"]]).txLinesCsv =
      some (groupedTable ctnAll polyRef [line0] (["A", "B"].zip [["s1"], ["s2"]])) :=
  ⟨by decide, by decide, by decide,
    output_grouping ctnAll usRef [line0] ["A", "B"] [["s1"], ["s2"]] polyRef
      (by decide) (by decide) (by decide)⟩

/-- C6 counterexample: the line is contained by no declared state within
region "B" (region "B" declares no states at all), yet region "B"'s
output holds two rows derived from that line, via the stale `region_df`
reference. -/
theorem uncontained_line_cex :
    rowsFor ((split_txlines_by_region ctnAll [("s1", Geometry.polygon 1)] [line0]
      ["A", "B"] [["s1"], []]).txLinesCsv.getD []) line0 "B" =
      [⟨line0, "s1", "B"⟩, ⟨line0, "s1", "B"⟩] ∧
    ([(⟨line0, "s1", "B"⟩ : PartitionedRow), ⟨line0, "s1", "B"⟩] : List PartitionedRow) ≠ [] := by
  decide

/-- C6 (amended): provided every declared region's member-state list is
nonempty and every declared state resolves to a valid area polygon, a
line occurring once in the input and contained by no declared state's
polygon within a region contributes zero rows to that region's output;
the run raises nothing; the log is the banner-and-counts log whose
per-state counts are the containment counts; and when no input line is
contained by any of the region's states those counts sum to zero. -/
theorem uncontained_line_zero_rows
    (ctn : Geometry → Geometry → Bool) (us_states : List (String × Geometry))
    (lines : List LineRow) (region_names : List String)
    (region_states : List (List String)) (poly : String → Geometry)
    (rname : String) (sts : List String) (l : LineRow)
    (hne : ∀ rp ∈ region_names.zip region_states, rp.2 ≠ [])
    (hlook : ∀ rp ∈ region_names.zip region_states, ∀ s ∈ rp.2,
      lookupState us_states s = some (poly s) ∧ isValidArea (poly s) = true)
    (hnd : region_names.Nodup)
    (hmem : (rname, sts) ∈ region_names.zip region_states)
    (hl : lines.count l = 1)
    (hzero : sts.filter (fun s => ctn (poly s) l.geometry) = []) :
    (split_txlines_by_region ctn us_states lines region_names
      region_states).errorRaised = none ∧
    rowsFor ((split_txlines_by_region ctn us_states lines region_names
      region_states).txLinesCsv.getD []) l rname = [] ∧
    (split_txlines_by_region ctn us_states lines region_names
      region_states).logEntries =
      splitLogOf ctn poly lines (region_names.zip region_states) ∧
    ((∀ s ∈ sts, ∀ ln ∈ lines, ctn (poly s) ln.geometry = false) →
      (sts.map fun s =>
        (lines.filter fun ln => ctn (poly s) ln.geometry).length).sum = 0) := by
  have hzip : region_names.zip region_states ≠ [] := List.ne_nil_of_mem hmem
  have hsplit := split_ok ctn us_states lines region_names region_states poly
    hzip hne hlook
  refine ⟨by rw [hsplit], ?_, by rw [hsplit], ?_⟩
  · rw [hsplit]
    show rowsFor (groupedTable ctn poly lines
      (region_names.zip region_states)) l rname = _
    have hndzip : ((region_names.zip region_states).map Prod.fst).Nodup :=
      List.Nodup.sublist (zip_map_fst_sublist region_names region_states) hnd
    rw [rowsFor_groupedTable ctn poly lines rname sts l _ hndzip hmem,
      rowsFor_regionBlock_self ctn poly lines rname sts l hl, hzero]
    rfl
  · intro h0
    refine List.sum_eq_zero ?_
    intro x hx
    rw [List.mem_map] at hx
    obtain ⟨s, hs, rfl⟩ := hx
    rw [List.length_eq_zero, List.filter_eq_nil_iff]
    intro ln hln
    rw [h0 s hs ln hln]
    exact Bool.false_ne_true

/-- Witness for the amended C6: no state contains the line and the
region contributes no rows, with zero counts. -/
theorem uncontained_line_zero_rows_witness :
    (∀ rp ∈ ["A"].zip [["s1", "s2"]], rp.2 ≠ []) ∧
    (∀ rp ∈ ["A"].zip [["s1", "s2"]], ∀ s ∈ rp.2,
      lookupState usRef s = some (polyRef s) ∧ isValidArea (polyRef s) = true) ∧
    (["A"] : List String).Nodup ∧
    ("A", ["s1", "s2"]) ∈ ["A"].zip [["s1", "s2"]] ∧
    [line0].count line0 = 1 ∧
    ["s1", "s2"].filter (fun s => ctnNone (polyRef s) line0.geometry) = [] ∧
    ((split_txlines_by_region ctnNone usRef [line0] ["A"]
      [["s1", "s2"]]).errorRaised = none ∧
    rowsFor ((split_txlines_by_region ctnNone usRef [line0] ["A"]
      [["s1", "s2"]]).txLinesCsv.getD []) line0 "A" = [] ∧
    (split_txlines_by_region ctnNone usRef [line0] ["A"]
      [["s1", "s2"]]).logEntries =
      splitLogOf ctnNone polyRef [line0] (["A"].zip [["s1", "s2"]]) ∧
    ((∀ s ∈ ["s1", "s2"], ∀ ln ∈ [line0], ctnNone (polyRef s) ln.geometry = false) →
      (["s1", "s2"].map fun s =>
        ([line0].filter fun ln => ctnNone (polyRef s) ln.geometry).length).sum = 0)) :=
  ⟨by decide, by decide, by decide, by decide, by decide, by decide,
    uncontained_line_zero_rows ctnNone usRef [line0] ["A"] [["s1", "s2"]]
      polyRef "A" ["s1", "s2"] line0 (by decide) (by decide) (by decide)
      (by decide) (by decide) (by decide)⟩

/-- C7 counterexample: an unresolvable state name makes
`split_txlines_by_region` raise, and on that path the log handle opened
at the start of the operation is not closed — there is no `try`/`finally`
or `with` block around it. -/
theorem log_close_cex :
    (split_txlines_by_region ctnAll usRef [line0] ["A"]
      [["zz"]]).errorRaised = some (SplitError.unknownState "zz") ∧
    (split_txlines_by_region ctnAll usRef [line0] ["A"]
      [["zz"]]).logClosed = false := by decide

/-- C7 (amended): each top-level operation closes (and thereby flushes)
its log handle exactly on normal completion: `split_txlines_by_region`
closes it iff it raises nothing, and `get_tower_coords` always reaches
its close. On raising paths of the partitioner the handle is left open. -/
theorem log_close_behavior
    (ctn : Geometry → Geometry → Bool) (us_states : List (String × Geometry))
    (lines : List LineRow) (region_names : List String)
    (region_states : List (List String)) (rows : List TxRow) :
    (split_txlines_by_region ctn us_states lines region_names
      region_states).logClosed =
      (split_txlines_by_region ctn us_states lines region_names
        region_states).errorRaised.isNone ∧
    (get_tower_coords rows).logClosed = true := by
  refine ⟨?_, rfl⟩
  unfold split_txlines_by_region
  cases hrun : runRegions ctn us_states lines (region_names.zip region_states)
      ⟨[], [], none, [SplitLog.header]⟩ with
  | error e => rfl
  | ok st => by_cases hemp : st.entries.isEmpty <;> simp [hemp]

/-- C10 counterexample: with both states of region "A" containing the
line and a trailing region "B" with an empty member list, the line
appears four times in the output — twice per containing state, not once
per containing state. -/
theorem overlap_two_states_cex :
    (((split_txlines_by_region ctnAll usRef [line0] ["A", "B"]
      [["s1", "s2"], []]).txLinesCsv.getD []).filter
        (fun r => decide (r.line = line0))).length = 4 ∧ (4 : ℕ) ≠ 2 := by decide

/-- C10 (amended): provided every declared region's member-state list is
nonempty and every declared state resolves to a valid area polygon, a
line occurring once in the input and contained by two distinct declared
states of one region appears exactly twice in that region's output, once
stamped with each containing state, in state declaration order. -/
theorem overlap_two_states_rows
    (ctn : Geometry → Geometry → Bool) (us_states : List (String × Geometry))
    (lines : List LineRow) (region_names : List String)
    (region_states : List (List String)) (poly : String → Geometry)
    (rname : String) (sts : List String) (l : LineRow) (s1 s2 : String)
    (hne : ∀ rp ∈ region_names.zip region_states, rp.2 ≠ [])
    (hlook : ∀ rp ∈ region_names.zip region_states, ∀ s ∈ rp.2,
      lookupState us_states s = some (poly s) ∧ isValidArea (poly s) = true)
    (hnd : region_names.Nodup)
    (hmem : (rname, sts) ∈ region_names.zip region_states)
    (hl : lines.count l = 1) (hs12 : s1 ≠ s2)
    (htwo : sts.filter (fun s => ctn (poly s) l.geometry) = [s1, s2]) :
    rowsFor ((split_txlines_by_region ctn us_states lines region_names
      region_states).txLinesCsv.getD []) l rname =
      [⟨l, s1, rname⟩, ⟨l, s2, rname⟩] := by
  have hzip : region_names.zip region_states ≠ [] := List.ne_nil_of_mem hmem
  rw [split_ok ctn us_states lines region_names region_states poly hzip hne hlook]
  show rowsFor (groupedTable ctn poly lines
    (region_names.zip region_states)) l rname = _
  have hndzip : ((region_names.zip region_states).map Prod.fst).Nodup :=
    List.Nodup.sublist (zip_map_fst_sublist region_names region_states) hnd
  rw [rowsFor_groupedTable ctn poly lines rname sts l _ hndzip hmem,
    rowsFor_regionBlock_self ctn poly lines rname sts l hl, htwo]
  rfl

/-- Witness for the amended C10: both states of the single region contain
the line, which appears once per state. -/
theorem overlap_two_states_rows_witness :
    (∀ rp ∈ ["A"].zip [["s1", "s2"]], rp.2 ≠ []) ∧
    (∀ rp ∈ ["A"].zip [["s1", "s2"]], ∀ s ∈ rp.2,
      lookupState usRef s = some (polyRef s) ∧ isValidArea (polyRef s) = true) ∧
    (["A"] : List String).Nodup ∧
    ("A", ["s1", "s2"]) ∈ ["A"].zip [["s1", "s2"]] ∧
    [line0].count line0 = 1 ∧ ("s1" ≠ "s2") ∧
    ["s1", "s2"].filter (fun s => ctnAll (polyRef s) line0.geometry) = ["s1", "s2"] ∧
    rowsFor ((split_txlines_by_region ctnAll usRef [line0] ["A"]
      [["s1", "s2"]]).txLinesCsv.getD []) line0 "A" =
      [⟨line0, "s1", "A"⟩, ⟨line0, "s2", "A"⟩] :=
  ⟨by decide, by decide, by decide, by decide, by decide, by decide, by decide,
    overlap_two_states_rows ctnAll usRef [line0] ["A"] [["s1", "s2"]] polyRef
      "A" ["s1", "s2"] line0 "s1" "s2" (by decide) (by decide) (by decide)
      (by decide) (by decide) (by decide) (by decide)⟩

/-- C8: `df_subset` is idempotent — for an attribute present in the
schema and bounds a ≤ b, applying the same filter to an already-filtered
table returns the identical table. -/
theorem df_subset_idempotent (df : DFrame) (feature : String) (a b : ℚ)
    (hf : feature ∈ df.cols) (hab : a ≤ b) :
    (df_subset df feature a b).bind (fun d => df_subset d feature a b) =
      df_subset df feature a b := by
  simp only [df_subset, if_pos hf, Except.bind]
  refine congrArg Except.ok (congrArg (DFrame.mk df.cols) ?_)
  rw [List.filter_filter]
  refine List.filter_congr (fun x _ => ?_)
  rw [Bool.and_self]

/-- Witness for C8 on a concrete three-row voltage table. -/
theorem df_subset_idempotent_witness :
    ("voltage" ∈ df0.cols) ∧ ((100 : ℚ) ≤ 300) ∧
    ((df_subset df0 "voltage" 100 300).bind
      (fun d => df_subset d "voltage" 100 300) =
      df_subset df0 "voltage" 100 300) :=
  ⟨by decide, by decide,
    df_subset_idempotent df0 "voltage" 100 300 (by decide) (by decide)⟩

/-- C9: the composition law — for an attribute present in the schema and
a ≤ b ≤ c, filtering to [a, b] and then to [b, c] yields exactly the rows
whose attribute value equals b, both bounds being inclusive. -/
theorem df_subset_composition (df : DFrame) (feature : String) (a b c : ℚ)
    (hf : feature ∈ df.cols) (hab : a ≤ b) (hbc : b ≤ c) :
    (df_subset df feature a b).bind (fun d => df_subset d feature b c) =
      Except.ok ⟨df.cols, df.rows.filter fun r => decide (r.valOf feature = b)⟩ := by
  simp only [df_subset, if_pos hf, Except.bind]
  refine congrArg Except.ok (congrArg (DFrame.mk df.cols) ?_)
  rw [List.filter_filter]
  refine List.filter_congr (fun x _ => ?_)
  by_cases hv : x.valOf feature = b
  · rw [hv]
    simp [hab, hbc]
  · by_cases h1 : b ≤ x.valOf feature
    · have h2 : ¬ x.valOf feature ≤ b := fun hle => hv (le_antisymm hle h1)
      simp [h1, h2, hv]
    · simp [h1, hv]

/-- Witness for C9 on a concrete three-row voltage table with bounds
100 ≤ 230 ≤ 300. -/
theorem df_subset_composition_witness :
    ("voltage" ∈ df0.cols) ∧ ((100 : ℚ) ≤ 230) ∧ ((230 : ℚ) ≤ 300) ∧
    ((df_subset df0 "voltage" 100 230).bind
      (fun d => df_subset d "voltage" 230 300) =
      Except.ok ⟨df0.cols, df0.rows.filter fun r =>
        decide (r.valOf "voltage" = 230)⟩) :=
  ⟨by decide, by decide, by decide,
    df_subset_composition df0 "voltage" 100 230 300 (by decide) (by decide)
      (by decide)⟩

end CollectingImages
